import Mathlib

/-!
Verification development for the strata-mcp session/command dispatch layer.

This file shallowly embeds the core of the adapter — the value codec
(`json_to_value` / `value_to_json` and the argument helpers of
`src/convert.rs`), the output codec (`output_to_json`), the session state
machine (`src/session.rs`) and the curated tool registry/dispatcher
(`src/tools/mod.rs`, `src/tools/agent.rs`) — and proves properties of the
embedded definitions.

External collaborators (the stratadb store, serde_json's number
representation) are modelled through their documented interfaces: the store
as an explicit state-passing interface, serde_json numbers as the
PosInt/NegInt/Float tagged union with rational carriers for finite doubles.
-/

deriving instance DecidableEq for Except

namespace StrataMcp

/-! ## Errors (src/error.rs is not part of the sources; the variants are
determined by their construction sites in src/session.rs, src/convert.rs and
src/tools/agent.rs, and by spec section 7). -/

/-- Modelled from the spec: error kinds of section 7, matching the
construction sites visible in the sources (`McpError::MissingArg`,
`McpError::InvalidArg`, `McpError::UnknownTool`, `McpError::BranchNotFound`,
`McpError::Strata`, `McpError::Internal`). -/
inductive McpError where
  | MissingArg (name : String)
  | InvalidArg (name : String) (reason : String)
  | UnknownTool (name : String)
  | BranchNotFound (name : String)
  | Strata (code : String) (message : String)
  | Internal (message : String)
  deriving DecidableEq, Repr

/-- Error type of the external stratadb store (pass-through code/message). -/
structure StoreError where
  code : String
  message : String
  deriving DecidableEq, Repr

/-! ## IEEE numbers.

serde_json represents a JSON number as one of `PosInt(u64)`, `NegInt(i64)`
(negative values only) or `Float(f64)` (finite only).  Every finite binary64
or binary32 value is a dyadic rational, and IEEE `==` on finite values
coincides with equality of the represented rational (with `0.0 == -0.0`),
so floats are carried as dyadics in the canonical form produced by
`Dyadic.norm`, together with the round-to-nearest-even conversions below
(normal range; no claim observes overflow or subnormal rounding). -/

/-- Floor of the base-2 logarithm of a positive natural, by fuel (first
argument); `log2floor n n` is `Nat.log2 n` but reduces by structural
recursion in the kernel. -/
def log2floor : Nat → Nat → Nat
  | 0, _ => 0
  | f + 1, n => if n ≤ 1 then 0 else 1 + log2floor f (n / 2)

/-- Number of binary digits of a natural number. -/
def natBits (n : Nat) : Nat :=
  if n = 0 then 0 else log2floor n n + 1

/-- A dyadic rational `m * 2 ^ e`, the value domain of binary floating
point.  Canonical form (as produced by `Dyadic.norm`): `m` odd, or
`m = 0 ∧ e = 0`. -/
structure Dyadic where
  m : Int
  e : Int
  deriving DecidableEq, Repr

/-- Split a positive natural into its odd part and the count of trailing
zero bits (first argument is fuel). -/
def stripTZ : Nat → Nat → Nat × Nat
  | 0, n => (n, 0)
  | f + 1, n =>
    if n % 2 == 0 && n != 0 then
      let p := stripTZ f (n / 2)
      (p.1, p.2 + 1)
    else (n, 0)

namespace Dyadic

/-- Canonicalize `m * 2 ^ e`. -/
def norm (m e : Int) : Dyadic :=
  if m = 0 then ⟨0, 0⟩
  else
    let p := stripTZ m.natAbs m.natAbs
    ⟨if m < 0 then -(p.1 : Int) else (p.1 : Int), e + (p.2 : Int)⟩

/-- The dyadic value of an integer, canonicalized. -/
def ofInt (i : Int) : Dyadic := norm i 0

/-- Round to `prec` significant bits, to nearest, ties to even: the IEEE
conversion into a binary float with a `prec`-bit significand (`prec = 53`
for binary64, `prec = 24` for binary32), for values in the normal range. -/
def roundPrec (prec : Nat) (d : Dyadic) : Dyadic :=
  let a := d.m.natAbs
  let bits := natBits a
  if bits ≤ prec then norm d.m d.e
  else
    let k := bits - prec
    let q := a / 2 ^ k
    let r := a % 2 ^ k
    let half := 2 ^ (k - 1)
    let q2 :=
      if r < half then q
      else if half < r then q + 1
      else if q % 2 = 0 then q else q + 1
    norm (if d.m < 0 then -(q2 : Int) else (q2 : Int)) (d.e + (k : Int))

/-- The integer value of a dyadic in canonical form, when it is one. -/
def toInt? (d : Dyadic) : Option Int :=
  if 0 ≤ d.e then some (d.m * (2 : Int) ^ d.e.toNat) else none

/-- Canonical-form predicate. -/
def canonical (d : Dyadic) : Bool :=
  (d.m == 0 && d.e == 0) || (d.m.natAbs % 2 == 1)

end Dyadic

/-- Two to the sixty-third, the first u64 value beyond `i64::MAX`. -/
def i64Bound : Nat := 2 ^ 63

/-- serde_json's number representation: an unsigned 64-bit integer, a
negative signed 64-bit integer, or a finite 64-bit float. -/
inductive JNumber where
  | posInt (n : Nat)
  | negInt (i : Int)
  | float (d : Dyadic)
  deriving DecidableEq, Repr

namespace JNumber

/-- serde invariants: `posInt` holds a u64, `negInt` a negative i64; float
payloads are finite doubles, carried in canonical dyadic form. -/
def wf : JNumber → Bool
  | posInt n => n < 2 ^ 64
  | negInt i => (-(i64Bound : Int) ≤ i) && (i < 0)
  | float d => d.canonical

/-- Model of `serde_json::Number::as_i64`. -/
def asI64 : JNumber → Option Int
  | posInt n => if n ≤ i64Bound - 1 then some (n : Int) else none
  | negInt i => some i
  | float _ => none

/-- Model of `serde_json::Number::as_u64`. -/
def asU64 : JNumber → Option Nat
  | posInt n => some n
  | negInt _ => none
  | float _ => none

/-- Model of `serde_json::Number::as_f64`: always available; integer
carriers are converted by the IEEE u64/i64-to-double cast. -/
def asF64 : JNumber → Option Dyadic
  | posInt n => some (Dyadic.roundPrec 53 ⟨(n : Int), 0⟩)
  | negInt i => some (Dyadic.roundPrec 53 ⟨i, 0⟩)
  | float d => some d

/-- Model of serde_json's `From<i64>` for numbers. -/
def fromInt (i : Int) : JNumber :=
  if i < 0 then negInt i else posInt i.toNat

/-- The mathematical (dyadic) value of a number, in canonical form. -/
def toDyadic : JNumber → Dyadic
  | posInt n => Dyadic.ofInt (n : Int)
  | negInt i => Dyadic.ofInt i
  | float d => d

/-- The mathematical value as a raw (not necessarily canonical) dyadic. -/
def rawDyadic : JNumber → Dyadic
  | posInt n => ⟨(n : Int), 0⟩
  | negInt i => ⟨i, 0⟩
  | float d => d

end JNumber

/-! ## JSON values (serde_json::Value).

`JsonMap` models `serde_json::Map` (a BTreeMap: keys strictly ascending in
the byte order of `String`); `JsonList` models `Vec<Value>`.  The mutual
inductive mirrors the recursive `serde_json::Value` union. -/

/-- Lexicographic comparison of character lists; on UTF-8 strings,
codepoint order coincides with Rust's byte-wise `Ord` for `String`. -/
def charListLt : List Char → List Char → Bool
  | [], [] => false
  | [], _ :: _ => true
  | _ :: _, [] => false
  | c :: cs, d :: ds =>
    if c < d then true
    else if c = d then charListLt cs ds
    else false

/-- The strict order on keys used by the BTreeMap model (kernel-reducible
form of Rust's `String` ordering). -/
def strLt (a b : String) : Bool := charListLt a.data b.data

mutual
inductive JsonValue where
  | null
  | bool (b : Bool)
  | num (n : JNumber)
  | str (s : String)
  | arr (items : JsonList)
  | obj (entries : JsonMap)
  deriving DecidableEq, Repr

inductive JsonList where
  | nil
  | cons (hd : JsonValue) (tl : JsonList)
  deriving DecidableEq, Repr

inductive JsonMap where
  | nil
  | cons (key : String) (val : JsonValue) (tl : JsonMap)
  deriving DecidableEq, Repr
end

namespace JsonMap

/-- Model of `serde_json::Map::get`. -/
def get : JsonMap → String → Option JsonValue
  | nil, _ => none
  | cons k v t, k2 => if k2 = k then some v else get t k2

/-- Model of `serde_json::Map::insert` (BTreeMap ordered insert; replaces
the value of an existing key). -/
def insert : JsonMap → String → JsonValue → JsonMap
  | nil, k, v => cons k v nil
  | cons k2 v2 t, k, v =>
    if strLt k k2 then cons k v (cons k2 v2 t)
    else if k = k2 then cons k v t
    else cons k2 v2 (insert t k v)

/-- Concatenation of entry lists (proof device, not a map operation). -/
def append : JsonMap → JsonMap → JsonMap
  | nil, m => m
  | cons k v t, m => cons k v (append t m)

/-- Keys in entry order. -/
def keys : JsonMap → List String
  | nil => []
  | cons k _ t => k :: keys t

/-- Build a map by inserting the pairs left to right, as the `serde_json::json!`
macro and map collection do. -/
def ofList (l : List (String × JsonValue)) : JsonMap :=
  l.foldl (fun m kv => m.insert kv.1 kv.2) nil

end JsonMap

/-- Build a JSON object from a pair list, modelling the `serde_json::json!`
object form. -/
def mkObj (l : List (String × JsonValue)) : JsonValue :=
  JsonValue.obj (JsonMap.ofList l)

/-- Convert a Lean list of values into a `JsonList` (models collecting an
iterator into a `Vec<serde_json::Value>`). -/
def ofJList : List JsonValue → JsonList
  | [] => .nil
  | v :: t => .cons v (ofJList t)

/-- Field access on a JSON object (none on other shapes). -/
def jGet : JsonValue → String → Option JsonValue
  | .obj m, k => m.get k
  | _, _ => none

/-! ## Typed store values (stratadb::Value).

`VMap` models `HashMap<String, Value>`; iteration order of a Rust HashMap is
arbitrary, so the entry order carried here is one admissible order (the
conversions below are insensitive to it wherever a claim looks).  The
`Bytes` variant of `stratadb::Value` is never produced by the codec under
verification and is omitted. -/

mutual
inductive Value where
  | Null
  | Bool (b : Bool)
  | Int (i : Int)
  | Float (d : Dyadic)
  | String (s : String)
  | Array (items : VList)
  | Object (entries : VMap)
  deriving DecidableEq, Repr

inductive VList where
  | nil
  | cons (hd : Value) (tl : VList)
  deriving DecidableEq, Repr

inductive VMap where
  | nil
  | cons (key : String) (val : Value) (tl : VMap)
  deriving DecidableEq, Repr
end

namespace VMap

/-- Model of `HashMap::insert`: replace in place when the key is present,
otherwise add the entry (placed at the end in this model). -/
def insertHM : VMap → String → Value → VMap
  | nil, k, v => cons k v nil
  | cons k2 v2 t, k, v =>
    if k = k2 then cons k v t else cons k2 v2 (insertHM t k v)

/-- Whether the map holds the key. -/
def hasKey : VMap → String → Bool
  | nil, _ => false
  | cons k2 _ t, k => k = k2 || hasKey t k

/-- Entry-list concatenation (proof device). -/
def append : VMap → VMap → VMap
  | nil, m => m
  | cons k v t, m => cons k v (append t m)

/-- Keys in entry order. -/
def keys : VMap → List String
  | nil => []
  | cons k _ t => k :: keys t

end VMap

/-! ## Well-formedness of JSON inputs.

A `serde_json::Value` obtained from parsing or from the `json!` macro keeps
its numbers inside the serde invariants and its object keys strictly
ascending (the BTreeMap entry-order invariant); `wf` states exactly that. -/

/-- All keys of the map are strictly greater than `k`. -/
def JsonMap.gtKey : JsonMap → String → Bool
  | .nil, _ => true
  | .cons k2 _ t, k => strLt k k2 && t.gtKey k

/-- Strictly ascending keys (every key below all later ones), the BTreeMap
entry-order invariant. -/
def JsonMap.sortedKeys : JsonMap → Bool
  | .nil => true
  | .cons k _ t => t.gtKey k && t.sortedKeys

mutual
def JsonValue.wf : JsonValue → Bool
  | .null => true
  | .bool _ => true
  | .num n => n.wf
  | .str _ => true
  | .arr l => l.wf
  | .obj m => m.sortedKeys && m.wf

def JsonList.wf : JsonList → Bool
  | .nil => true
  | .cons h t => h.wf && t.wf

def JsonMap.wf : JsonMap → Bool
  | .nil => true
  | .cons _ v t => v.wf && t.wf

end

/-- Numbers that survive the decode/encode round trip: integer-carried
within i64 range, or float-carried.  (An integer-carried number above
`i64::MAX` decodes to a Float and re-encodes as a float number.) -/
def JNumber.rtOk : JNumber → Bool
  | .posInt n => n ≤ i64Bound - 1
  | .negInt _ => true
  | .float _ => true

mutual
def JsonValue.numsRtOk : JsonValue → Bool
  | .null => true
  | .bool _ => true
  | .num n => n.rtOk
  | .str _ => true
  | .arr l => l.numsRtOk
  | .obj m => m.numsRtOk

def JsonList.numsRtOk : JsonList → Bool
  | .nil => true
  | .cons h t => h.numsRtOk && t.numsRtOk

def JsonMap.numsRtOk : JsonMap → Bool
  | .nil => true
  | .cons _ v t => v.numsRtOk && t.numsRtOk

end

/-- The words of spec section 4.1, first clause: the number's mathematical
value is exactly representable as a 64-bit signed integer. -/
def JNumber.specI64 : JNumber → Bool
  | .posInt n => n ≤ i64Bound - 1
  | .negInt i => (-(i64Bound : Int) ≤ i) && (i ≤ (i64Bound : Int) - 1)
  | .float d =>
    match d.toInt? with
    | some i => (-(i64Bound : Int) ≤ i) && (i ≤ (i64Bound : Int) - 1)
    | none => false

/-- The representability rule in the words of spec section 4.1: the number
is exactly representable as a 64-bit signed integer, or exactly
representable as a 64-bit float (rounding to binary64 leaves it fixed). -/
def JNumber.specRepresentable (n : JNumber) : Bool :=
  n.specI64 || (Dyadic.roundPrec 53 n.rawDyadic == n.toDyadic)

mutual
def JsonValue.specNumsRepresentable : JsonValue → Bool
  | .null => true
  | .bool _ => true
  | .num n => n.specRepresentable
  | .str _ => true
  | .arr l => l.specNumsRepresentable
  | .obj m => m.specNumsRepresentable

def JsonList.specNumsRepresentable : JsonList → Bool
  | .nil => true
  | .cons h t => h.specNumsRepresentable && t.specNumsRepresentable

def JsonMap.specNumsRepresentable : JsonMap → Bool
  | .nil => true
  | .cons _ v t => v.specNumsRepresentable && t.specNumsRepresentable

end

/-! ## Value codec: decode (src/convert.rs, `json_to_value`). -/

mutual
/-- Embedding of `json_to_value` (src/convert.rs lines 13 to 42): numbers go
through `as_i64` then `as_f64`, arrays collect recursively, objects insert
each entry into a fresh HashMap. -/
def json_to_value : JsonValue → Except McpError Value
  | .null => .ok .Null
  | .bool b => .ok (.Bool b)
  | .num n =>
    match n.asI64 with
    | some i => .ok (.Int i)
    | none =>
      match n.asF64 with
      | some f => .ok (.Float f)
      | none => .error (.InvalidArg "value" "Number out of range")
  | .str s => .ok (.String s)
  | .arr l => (json_to_value_list l).map .Array
  | .obj m => (json_to_value_entries m .nil).map .Object

/-- The `arr.into_iter().map(json_to_value).collect()` line: sequential,
first error wins. -/
def json_to_value_list : JsonList → Except McpError VList
  | .nil => .ok .nil
  | .cons h t =>
    match json_to_value h with
    | .error e => .error e
    | .ok v =>
      match json_to_value_list t with
      | .error e => .error e
      | .ok vs => .ok (.cons v vs)

/-- The object loop: `for (k, v) in map { obj.insert(k, json_to_value(v)?); }`
with accumulator `obj`. -/
def json_to_value_entries : JsonMap → VMap → Except McpError VMap
  | .nil, acc => .ok acc
  | .cons k v t, acc =>
    match json_to_value v with
    | .error e => .error e
    | .ok w => json_to_value_entries t (acc.insertHM k w)

end

/-- Direct (accumulator-free) form of the object decode loop; proved equal
to `json_to_value_entries` on fresh keys and used in the round-trip
induction. -/
def mapDecode : JsonMap → Except McpError VMap
  | .nil => .ok .nil
  | .cons k v t =>
    match json_to_value v with
    | .error e => .error e
    | .ok w =>
      match mapDecode t with
      | .error e => .error e
      | .ok rest => .ok (.cons k w rest)

/-! ## Value codec: encode (src/convert.rs, `value_to_json`). -/

mutual
/-- Modelled from the spec: `value_to_json` delegates to stratadb's
`Into<serde_json::Value>` (the stratadb crate is an external collaborator);
spec section 4.1 fixes its behavior — Null/Bool/String structural, Int and
Float back to JSON numbers (always lossless), arrays recurse, objects are
preserved by key (collected into a serde map, hence key-sorted). -/
def value_to_json : Value → JsonValue
  | .Null => .null
  | .Bool b => .bool b
  | .Int i => .num (.fromInt i)
  | .Float q => .num (.float q)
  | .String s => .str s
  | .Array l => .arr (value_to_json_list l)
  | .Object m => .obj (value_to_json_entries m .nil)

def value_to_json_list : VList → JsonList
  | .nil => .nil
  | .cons h t => .cons (value_to_json h) (value_to_json_list t)

/-- Collecting the HashMap entries into a `serde_json::Map` (BTreeMap):
insert one by one. -/
def value_to_json_entries : VMap → JsonMap → JsonMap
  | .nil, acc => acc
  | .cons k v t, acc => value_to_json_entries t (acc.insert k (value_to_json v))

end

/-- Direct (accumulator-free) form of the object encode loop. -/
def mapEncode : VMap → JsonMap
  | .nil => .nil
  | .cons k v t => .cons k (value_to_json v) (mapEncode t)

/-! ## Store outputs (stratadb::Output) and the output codec.

Only the `Output` variants exercised by the claims and by the curated
handlers are modelled; the remaining stratadb variants have their own
independent arms in `output_to_json` and are omitted. -/

/-- A value together with version and timestamp metadata. -/
structure VersionedValue where
  value : Value
  version : Nat
  timestamp : Nat
  deriving DecidableEq, Repr

/-- Database info payload (`Output::DatabaseInfo`). -/
structure DbInfo where
  version : String
  uptime_secs : Nat
  branch_count : Nat
  total_keys : Nat
  deriving DecidableEq, Repr

/-- One search hit (`stratadb` search result entry). -/
structure SearchHit where
  entity : String
  primitive : String
  score : Dyadic
  rank : Nat
  snippet : Option String
  deriving DecidableEq, Repr

/-- Embedding pipeline status payload (`Output::EmbedStatus`). -/
structure EmbedInfo where
  auto_embed : Bool
  batch_size : Nat
  pending : Nat
  total_queued : Nat
  total_embedded : Nat
  total_failed : Nat
  scheduler_queue_depth : Nat
  scheduler_active_tasks : Nat
  deriving DecidableEq, Repr

/-- The store's output union (claim-relevant subset of `stratadb::Output`). -/
inductive Output where
  | Unit
  | Maybe (v : Option Value)
  | MaybeVersioned (v : Option VersionedValue)
  | Version (v : Nat)
  | Bool (b : Bool)
  | Uint (n : Nat)
  | VersionedValues (vs : List VersionedValue)
  | Keys (ks : List String)
  | TxnBegun
  | TxnCommitted (version : Nat)
  | TxnAborted
  | DatabaseInfo (info : DbInfo)
  | SearchResults (rs : List SearchHit)
  | TimeRange (oldest_ts latest_ts : Option Nat)
  | EmbedStatus (info : EmbedInfo)
  deriving DecidableEq, Repr

/-- Embedding of `versioned_to_json` (src/convert.rs lines 52 to 58). -/
def versioned_to_json (vv : VersionedValue) : JsonValue :=
  mkObj [("value", value_to_json vv.value),
         ("version", .num (.posInt vv.version)),
         ("timestamp", .num (.posInt vv.timestamp))]

/-- JSON of an optional u64 (`serde_json::json!` of an `Option<u64>`). -/
def optNat : Option Nat → JsonValue
  | none => .null
  | some n => .num (.posInt n)

/-- JSON of an optional string. -/
def optStr : Option String → JsonValue
  | none => .null
  | some s => .str s

/-- Embedding of `output_to_json` (src/convert.rs lines 61 to 396), one arm
per modelled variant, each mirroring its source arm. -/
def output_to_json : Output → JsonValue
  | .Unit => .null
  | .Maybe opt => (opt.map value_to_json).getD .null
  | .MaybeVersioned opt => (opt.map versioned_to_json).getD .null
  | .Version v => mkObj [("version", .num (.posInt v))]
  | .Bool b => .bool b
  | .Uint n => .num (.posInt n)
  | .VersionedValues vs => .arr (ofJList (vs.map versioned_to_json))
  | .Keys ks => .arr (ofJList (ks.map .str))
  | .TxnBegun => mkObj [("status", .str "begun")]
  | .TxnCommitted version =>
    mkObj [("status", .str "committed"), ("version", .num (.posInt version))]
  | .TxnAborted => mkObj [("status", .str "aborted")]
  | .DatabaseInfo info =>
    mkObj [("version", .str info.version),
           ("uptime_secs", .num (.posInt info.uptime_secs)),
           ("branch_count", .num (.posInt info.branch_count)),
           ("total_keys", .num (.posInt info.total_keys))]
  | .SearchResults rs =>
    .arr (ofJList (rs.map fun r =>
      mkObj [("entity", .str r.entity),
             ("primitive", .str r.primitive),
             ("score", .num (.float r.score)),
             ("rank", .num (.posInt r.rank)),
             ("snippet", optStr r.snippet)]))
  | .TimeRange oldest_ts latest_ts =>
    mkObj [("oldest_ts", optNat oldest_ts), ("latest_ts", optNat latest_ts)]
  | .EmbedStatus info =>
    let is_idle := info.pending == 0
      && info.scheduler_active_tasks == 0
      && info.scheduler_queue_depth == 0
    mkObj [("auto_embed", .bool info.auto_embed),
           ("batch_size", .num (.posInt info.batch_size)),
           ("pending", .num (.posInt info.pending)),
           ("total_queued", .num (.posInt info.total_queued)),
           ("total_embedded", .num (.posInt info.total_embedded)),
           ("total_failed", .num (.posInt info.total_failed)),
           ("scheduler_queue_depth", .num (.posInt info.scheduler_queue_depth)),
           ("scheduler_active_tasks", .num (.posInt info.scheduler_active_tasks)),
           ("is_idle", .bool is_idle)]

/-! ## serde_json::Value accessors used by the argument helpers. -/

/-- Model of `serde_json::Value::as_str`. -/
def jsonAsStr : JsonValue → Option String
  | .str s => some s
  | _ => none

/-- Model of `serde_json::Value::as_u64`. -/
def jsonAsU64 : JsonValue → Option Nat
  | .num n => n.asU64
  | _ => none

/-- Model of `serde_json::Value::as_f64`. -/
def jsonAsF64 : JsonValue → Option Dyadic
  | .num n => n.asF64
  | _ => none

/-- Model of `serde_json::Value::as_array`. -/
def jsonAsArray : JsonValue → Option JsonList
  | .arr l => some l
  | _ => none

/-- Model of `serde_json::Value::as_bool`. -/
def jsonAsBool : JsonValue → Option Bool
  | .bool b => some b
  | _ => none

/-- Shape discriminators (used to state the wrong-type claims). -/
def isString : JsonValue → Bool
  | .str _ => true
  | _ => false

def isNumber : JsonValue → Bool
  | .num _ => true
  | _ => false

def isBool : JsonValue → Bool
  | .bool _ => true
  | _ => false

/-! ## Argument helpers (src/convert.rs lines 398 to 452). -/

/-- Embedding of `get_string_arg`:
`args.get(name).and_then(as_str).map(to_string).ok_or(MissingArg(name))`. -/
def get_string_arg (args : JsonMap) (name : String) : Except McpError String :=
  match (args.get name).bind jsonAsStr with
  | some s => .ok s
  | none => .error (.MissingArg name)

/-- Embedding of `get_optional_string`. -/
def get_optional_string (args : JsonMap) (name : String) : Option String :=
  (args.get name).bind jsonAsStr

/-- Embedding of `get_u64_arg`. -/
def get_u64_arg (args : JsonMap) (name : String) : Except McpError Nat :=
  match (args.get name).bind jsonAsU64 with
  | some n => .ok n
  | none => .error (.MissingArg name)

/-- Embedding of `get_optional_u64`. -/
def get_optional_u64 (args : JsonMap) (name : String) : Option Nat :=
  (args.get name).bind jsonAsU64

/-- Embedding of `get_value_arg`: clone the field (MissingArg if absent)
then decode it with `json_to_value`. -/
def get_value_arg (args : JsonMap) (name : String) : Except McpError Value :=
  match args.get name with
  | none => .error (.MissingArg name)
  | some j => json_to_value j

/-- Element conversion of `get_vector_arg`: each element through `as_f64`
(then narrowed to f32), otherwise InvalidArg naming the field. -/
def vector_elems (name : String) : JsonList → Except McpError (List Dyadic)
  | .nil => .ok []
  | .cons h t =>
    match jsonAsF64 h with
    | some f =>
      match vector_elems name t with
      | .error e => .error e
      | .ok rest => .ok (Dyadic.roundPrec 24 f :: rest)
    | none => .error (.InvalidArg name "Expected array of numbers")

/-- Embedding of `get_vector_arg`:
`args.get(name).and_then(as_array).ok_or(MissingArg)`, then every element
through `as_f64 as f32` or InvalidArg. -/
def get_vector_arg (args : JsonMap) (name : String) : Except McpError (List Dyadic) :=
  match (args.get name).bind jsonAsArray with
  | none => .error (.MissingArg name)
  | some arr => vector_elems name arr

/-- Embedding of `get_optional_bool`. -/
def get_optional_bool (args : JsonMap) (name : String) : Option Bool :=
  (args.get name).bind jsonAsBool

/-! ## Commands (stratadb::Command, claim-relevant subset: exactly the
constructors built by src/session.rs and src/tools/agent.rs). -/

/-- Access mode of the open store. -/
inductive AccessMode where
  | ReadOnly
  | ReadWrite
  deriving DecidableEq, Repr

/-- Merge strategy passed to the branch power API; the curated branch tool
always uses `LastWriterWins` (other stratadb strategies are not reachable
from the modelled surface). -/
inductive MergeStrategy where
  | LastWriterWins
  deriving DecidableEq, Repr

/-- The search query struct built by `dispatch_search`; the four fields the
handler always leaves at `None` carry an opaque payload type. -/
structure SearchQuery where
  query : String
  k : Option Nat
  primitives : Option Unit
  time_range : Option Unit
  mode : Option Unit
  expand : Option Unit
  rerank : Option Unit
  deriving DecidableEq, Repr

/-- The store command union (claim-relevant subset of `stratadb::Command`). -/
inductive Command where
  | JsonSet (branch : Option String) (space : Option String)
      (key : String) (path : String) (value : Value)
  | JsonGet (branch : Option String) (space : Option String)
      (key : String) (path : String) (as_of : Option Nat)
  | JsonDelete (branch : Option String) (space : Option String)
      (key : String) (path : String)
  | JsonGetv (branch : Option String) (space : Option String)
      (key : String) (as_of : Option Nat)
  | EventAppend (branch : Option String) (space : Option String)
      (event_type : String) (payload : Value)
  | Search (branch : Option String) (space : Option String) (search : SearchQuery)
  | BranchCreate (branch_id : Option String) (metadata : Option Value)
  | BranchList (state : Option Unit) (limit : Option Nat) (offset : Option Nat)
  | BranchDelete (branch : String)
  | BranchExists (branch : String)
  | TimeRange (branch : Option String)
  | Info
  | EmbedStatus
  | TxnBegin
  | TxnCommit
  | TxnAbort
  deriving DecidableEq, Repr

/-- Branch fork result (`stratadb::ForkInfo`). -/
structure ForkInfo where
  source : String
  destination : String
  keys_copied : Nat
  deriving DecidableEq, Repr

/-- Branch diff summary (`stratadb::BranchDiffResult.summary`). -/
structure DiffSummary where
  total_added : Nat
  total_removed : Nat
  total_modified : Nat
  deriving DecidableEq, Repr

/-- Branch diff result (`stratadb::BranchDiffResult`). -/
structure BranchDiffResult where
  branch_a : String
  branch_b : String
  summary : DiffSummary
  deriving DecidableEq, Repr

/-- One merge conflict (`stratadb::MergeInfo.conflicts` entry). -/
structure MergeConflict where
  key : String
  space : String
  deriving DecidableEq, Repr

/-- Branch merge result (`stratadb::MergeInfo`). -/
structure MergeInfo where
  keys_applied : Nat
  spaces_merged : Nat
  conflicts : List MergeConflict
  deriving DecidableEq, Repr

/-! ## The external store interface.

The stratadb `Strata` handle and its `Session` are external collaborators
(spec sections 1 and 6); they are modelled as an explicit state type `σ`
together with the operations the adapter calls on them, and the statics
`Command::is_write` / `Command::name` whose truth tables live in stratadb.
Theorems quantify over every interface, so they hold whatever the store
does. -/

structure StrataIface (σ : Type) where
  /-- `Strata::access_mode` (fixed for the lifetime of the handle). -/
  access_mode : σ → AccessMode
  /-- The static `Command::is_write` predicate. -/
  is_write : Command → Bool
  /-- The static `Command::name` operation name. -/
  cmd_name : Command → String
  /-- `stratadb::Session::execute`: may mutate the store, returns an output
  or a store error. -/
  exec : σ → Command → σ × Except StoreError Output
  /-- `strata.branches().fork(source, destination)`. -/
  fork : σ → String → String → σ × Except StoreError ForkInfo
  /-- `strata.branches().diff(a, b)`. -/
  diff : σ → String → String → σ × Except StoreError BranchDiffResult
  /-- `strata.branches().merge(source, destination, strategy)`. -/
  merge : σ → String → String → MergeStrategy → σ × Except StoreError MergeInfo

/-- Conversion of a store error into the MCP error (the `From` impl behind
the `?` operator: pass-through code and message). -/
def StoreError.toMcp (e : StoreError) : McpError :=
  .Strata e.code e.message

/-! ## The MCP session (src/session.rs). -/

/-- Embedding of `McpSession`: the store handle state plus the three
context fields. -/
structure McpSession (σ : Type) where
  store : σ
  branch : String
  space : String
  in_transaction : Bool

namespace McpSession

variable {σ : Type} (I : StrataIface σ)

/-- Embedding of `McpSession::new` (src/session.rs lines 32 to 41). -/
def new (st : σ) : McpSession σ :=
  { store := st, branch := "default", space := "default", in_transaction := false }

/-- Embedding of `McpSession::is_read_only`. -/
def is_read_only (s : McpSession σ) : Bool :=
  I.access_mode s.store == .ReadOnly

/-- Embedding of `McpSession::check_write_access` (src/session.rs lines 49
to 60). -/
def check_write_access (s : McpSession σ) (operation : String) : Except McpError Unit :=
  if is_read_only I s then
    .error (.Strata "ACCESS_DENIED"
      ("access denied: " ++ operation ++ " rejected — database is read-only"))
  else .ok ()

/-- Embedding of `McpSession::switch_branch` (src/session.rs lines 84 to
103): existence check through the raw store session, then context update. -/
def switch_branch (s : McpSession σ) (name : String) :
    McpSession σ × Except McpError Unit :=
  match I.exec s.store (.BranchExists name) with
  | (st2, .error e) => ({ s with store := st2 }, .error e.toMcp)
  | (st2, .ok (.Bool b)) =>
    if b then ({ s with store := st2, branch := name }, .ok ())
    else ({ s with store := st2 }, .error (.BranchNotFound name))
  | (st2, .ok _) =>
    ({ s with store := st2 }, .error (.Internal "Unexpected output for BranchExists"))

/-- Embedding of `McpSession::switch_space`. -/
def switch_space (s : McpSession σ) (name : String) : McpSession σ :=
  { s with space := name }

/-- Embedding of `McpSession::execute` (src/session.rs lines 114 to 128):
write guard, store execution, then transaction tracking on the output. -/
def execute (s : McpSession σ) (cmd : Command) :
    McpSession σ × Except McpError Output :=
  match (if I.is_write cmd then check_write_access I s (I.cmd_name cmd) else .ok ()) with
  | .error e => (s, .error e)
  | .ok _ =>
    match I.exec s.store cmd with
    | (st2, .error e) => ({ s with store := st2 }, .error e.toMcp)
    | (st2, .ok out) =>
      let tx :=
        match out with
        | .TxnBegun => true
        | .TxnCommitted _ => false
        | .TxnAborted => false
        | _ => s.in_transaction
      ({ s with store := st2, in_transaction := tx }, .ok out)

/-- Embedding of `McpSession::fork_branch` (src/session.rs lines 131 to
137): write check, then the branch power API from the current branch. -/
def fork_branch (s : McpSession σ) (destination : String) :
    McpSession σ × Except McpError ForkInfo :=
  match check_write_access I s "BranchFork" with
  | .error e => (s, .error e)
  | .ok _ =>
    match I.fork s.store s.branch destination with
    | (st2, .error e) => ({ s with store := st2 }, .error e.toMcp)
    | (st2, .ok info) => ({ s with store := st2 }, .ok info)

/-- Embedding of `McpSession::diff_branches` (src/session.rs lines 140 to
145): no write check. -/
def diff_branches (s : McpSession σ) (branch_a branch_b : String) :
    McpSession σ × Except McpError BranchDiffResult :=
  match I.diff s.store branch_a branch_b with
  | (st2, .error e) => ({ s with store := st2 }, .error e.toMcp)
  | (st2, .ok d) => ({ s with store := st2 }, .ok d)

/-- Embedding of `McpSession::merge_branch` (src/session.rs lines 148 to
154): write check, then merge of the source into the current branch. -/
def merge_branch (s : McpSession σ) (source : String) (strategy : MergeStrategy) :
    McpSession σ × Except McpError MergeInfo :=
  match check_write_access I s "BranchMerge" with
  | .error e => (s, .error e)
  | .ok _ =>
    match I.merge s.store source s.branch strategy with
    | (st2, .error e) => ({ s with store := st2 }, .error e.toMcp)
    | (st2, .ok info) => ({ s with store := st2 }, .ok info)

/-- Embedding of `McpSession::branch_id`. -/
def branch_id (s : McpSession σ) : Option String := some s.branch

/-- Embedding of `McpSession::space_id`. -/
def space_id (s : McpSession σ) : Option String := some s.space

end McpSession

/-! ## Tool registry and the curated (agent) dispatcher
(src/tools/mod.rs, src/tools/agent.rs). -/

/-- Embedding of `ToolDef` (src/tools/mod.rs lines 35 to 55).  The source
struct also carries a description string and a JSON-Schema object; both are
descriptive metadata surfaced to callers, never consulted by dispatch (spec
section 6), and are not modelled. -/
structure ToolDef where
  name : String
  deriving DecidableEq, Repr

namespace agent

/-- Embedding of `agent::tools` (src/tools/agent.rs lines 30 to 149): the
eight curated tool definitions, in source order. -/
def tools : List ToolDef :=
  [⟨"strata_store"⟩, ⟨"strata_recall"⟩, ⟨"strata_search"⟩, ⟨"strata_forget"⟩,
   ⟨"strata_log"⟩, ⟨"strata_branch"⟩, ⟨"strata_history"⟩, ⟨"strata_status"⟩]

variable {σ : Type} (I : StrataIface σ)

/-- Embedding of `dispatch_store` (src/tools/agent.rs lines 172 to 194). -/
def dispatch_store (s : McpSession σ) (args : JsonMap) :
    McpSession σ × Except McpError JsonValue :=
  match get_string_arg args "key" with
  | .error e => (s, .error e)
  | .ok key =>
    match get_value_arg args "value" with
    | .error e => (s, .error e)
    | .ok value =>
      let path := (get_optional_string args "path").getD "$"
      match McpSession.execute I s (.JsonSet s.branch_id s.space_id key path value) with
      | (s2, .error e) => (s2, .error e)
      | (s2, .ok (.Version v)) =>
        (s2, .ok (mkObj [("key", .str key), ("version", .num (.posInt v)),
                         ("stored", .bool true)]))
      | (s2, .ok other) => (s2, .ok (output_to_json other))

/-- Embedding of `dispatch_recall` (src/tools/agent.rs lines 198 to 212). -/
def dispatch_recall (s : McpSession σ) (args : JsonMap) :
    McpSession σ × Except McpError JsonValue :=
  match get_string_arg args "key" with
  | .error e => (s, .error e)
  | .ok key =>
    let path := (get_optional_string args "path").getD "$"
    let as_of := get_optional_u64 args "as_of"
    match McpSession.execute I s (.JsonGet s.branch_id s.space_id key path as_of) with
    | (s2, .error e) => (s2, .error e)
    | (s2, .ok out) => (s2, .ok (output_to_json out))

/-- Embedding of `dispatch_search` (src/tools/agent.rs lines 216 to 254). -/
def dispatch_search (s : McpSession σ) (args : JsonMap) :
    McpSession σ × Except McpError JsonValue :=
  match get_string_arg args "query" with
  | .error e => (s, .error e)
  | .ok query =>
    let k := get_optional_u64 args "k"
    let sq : SearchQuery :=
      { query := query, k := k, primitives := none, time_range := none,
        mode := none, expand := none, rerank := none }
    match McpSession.execute I s (.Search s.branch_id s.space_id sq) with
    | (s2, .error e) => (s2, .error e)
    | (s2, .ok (.SearchResults rs)) =>
      (s2, .ok (.arr (ofJList (rs.map fun r =>
        mkObj [("key", .str r.entity), ("score", .num (.float r.score)),
               ("snippet", optStr r.snippet)]))))
    | (s2, .ok other) => (s2, .ok (output_to_json other))

/-- Embedding of `dispatch_forget` (src/tools/agent.rs lines 258 to 273). -/
def dispatch_forget (s : McpSession σ) (args : JsonMap) :
    McpSession σ × Except McpError JsonValue :=
  match get_string_arg args "key" with
  | .error e => (s, .error e)
  | .ok key =>
    match McpSession.execute I s (.JsonDelete s.branch_id s.space_id key "$") with
    | (s2, .error e) => (s2, .error e)
    | (s2, .ok (.Uint n)) => (s2, .ok (mkObj [("deleted", .bool (decide (0 < n)))]))
    | (s2, .ok other) => (s2, .ok (output_to_json other))

/-- Embedding of `dispatch_log` (src/tools/agent.rs lines 277 to 296). -/
def dispatch_log (s : McpSession σ) (args : JsonMap) :
    McpSession σ × Except McpError JsonValue :=
  match get_string_arg args "event" with
  | .error e => (s, .error e)
  | .ok event =>
    match get_value_arg args "data" with
    | .error e => (s, .error e)
    | .ok data =>
      match McpSession.execute I s (.EventAppend s.branch_id s.space_id event data) with
      | (s2, .error e) => (s2, .error e)
      | (s2, .ok (.Version v)) =>
        (s2, .ok (mkObj [("sequence", .num (.posInt v)), ("logged", .bool true)]))
      | (s2, .ok other) => (s2, .ok (output_to_json other))

/-- Embedding of `dispatch_branch` (src/tools/agent.rs lines 300 to 398):
one entry point multiplexed on the `action` field. -/
def dispatch_branch (s : McpSession σ) (args : JsonMap) :
    McpSession σ × Except McpError JsonValue :=
  match get_string_arg args "action" with
  | .error e => (s, .error e)
  | .ok action =>
    match action with
    | "create" =>
      let name := get_optional_string args "name"
      match McpSession.execute I s (.BranchCreate name none) with
      | (s2, .error e) => (s2, .error e)
      | (s2, .ok out) => (s2, .ok (output_to_json out))
    | "switch" =>
      match get_string_arg args "name" with
      | .error e => (s, .error e)
      | .ok name =>
        match McpSession.switch_branch I s name with
        | (s2, .error e) => (s2, .error e)
        | (s2, .ok _) =>
          (s2, .ok (mkObj [("switched", .bool true), ("branch", .str name)]))
    | "list" =>
      match McpSession.execute I s (.BranchList none none none) with
      | (s2, .error e) => (s2, .error e)
      | (s2, .ok out) => (s2, .ok (output_to_json out))
    | "fork" =>
      match get_string_arg args "name" with
      | .error e => (s, .error e)
      | .ok name =>
        match McpSession.fork_branch I s name with
        | (s2, .error e) => (s2, .error e)
        | (s2, .ok info) =>
          (s2, .ok (mkObj [("forked", .bool true), ("source", .str info.source),
                           ("destination", .str info.destination),
                           ("keys_copied", .num (.posInt info.keys_copied))]))
    | "merge" =>
      match get_string_arg args "source" with
      | .error e => (s, .error e)
      | .ok source =>
        match McpSession.merge_branch I s source .LastWriterWins with
        | (s2, .error e) => (s2, .error e)
        | (s2, .ok info) =>
          (s2, .ok (mkObj [("merged", .bool true),
                           ("keys_applied", .num (.posInt info.keys_applied)),
                           ("spaces_merged", .num (.posInt info.spaces_merged)),
                           ("conflicts", .arr (ofJList (info.conflicts.map fun c =>
                             mkObj [("key", .str c.key), ("space", .str c.space)])))]))
    | "diff" =>
      match get_string_arg args "compare" with
      | .error e => (s, .error e)
      | .ok compare =>
        match McpSession.diff_branches I s s.branch compare with
        | (s2, .error e) => (s2, .error e)
        | (s2, .ok d) =>
          (s2, .ok (mkObj [("current_branch", .str d.branch_a),
                           ("compare_branch", .str d.branch_b),
                           ("added", .num (.posInt d.summary.total_added)),
                           ("removed", .num (.posInt d.summary.total_removed)),
                           ("modified", .num (.posInt d.summary.total_modified))]))
    | "delete" =>
      match get_string_arg args "name" with
      | .error e => (s, .error e)
      | .ok name =>
        match McpSession.execute I s (.BranchDelete name) with
        | (s2, .error e) => (s2, .error e)
        | (s2, .ok out) => (s2, .ok (output_to_json out))
    | other =>
      (s, .error (.InvalidArg "action"
        ("Unknown action \x27" ++ other ++
         "\x27. Use: create, switch, list, fork, merge, diff, or delete.")))

/-- Embedding of `dispatch_history` (src/tools/agent.rs lines 402 to 438). -/
def dispatch_history (s : McpSession σ) (args : JsonMap) :
    McpSession σ × Except McpError JsonValue :=
  let key := get_optional_string args "key"
  let as_of := get_optional_u64 args "as_of"
  match key with
  | some key =>
    match McpSession.execute I s (.JsonGetv s.branch_id s.space_id key as_of) with
    | (s2, .error e) => (s2, .error e)
    | (s2, .ok out) => (s2, .ok (output_to_json out))
  | none =>
    match McpSession.execute I s (.TimeRange s.branch_id) with
    | (s2, .error e) => (s2, .error e)
    | (s2, .ok (.TimeRange oldest_ts latest_ts)) =>
      (s2, .ok (mkObj [("branch", .str s2.branch), ("oldest", optNat oldest_ts),
                       ("latest", optNat latest_ts)]))
    | (s2, .ok other) => (s2, .ok (output_to_json other))

/-- Embedding of `dispatch_status` (src/tools/agent.rs lines 442 to 468):
database info, then a tolerated embed-status call whose failure only omits
the `auto_embed` field. -/
def dispatch_status (s : McpSession σ) :
    McpSession σ × Except McpError JsonValue :=
  match McpSession.execute I s .Info with
  | (s1, .error e) => (s1, .error e)
  | (s1, .ok info_output) =>
    let result :=
      match info_output with
      | .DatabaseInfo info =>
        mkObj [("version", .str info.version), ("branch", .str s1.branch),
               ("namespace", .str s1.space),
               ("branches", .num (.posInt info.branch_count)),
               ("keys", .num (.posInt info.total_keys)),
               ("uptime_secs", .num (.posInt info.uptime_secs))]
      | _ => mkObj [("branch", .str s1.branch), ("namespace", .str s1.space)]
    match McpSession.execute I s1 .EmbedStatus with
    | (s2, .ok (.EmbedStatus embed)) =>
      let result2 :=
        match result with
        | .obj m => JsonValue.obj (m.insert "auto_embed" (.bool embed.auto_embed))
        | other => other
      (s2, .ok result2)
    | (s2, _) => (s2, .ok result)

/-- Embedding of `agent::dispatch` (src/tools/agent.rs lines 152 to 168):
exact-match lookup on the tool name. -/
def dispatch (s : McpSession σ) (name : String) (args : JsonMap) :
    McpSession σ × Except McpError JsonValue :=
  match name with
  | "strata_store" => dispatch_store I s args
  | "strata_recall" => dispatch_recall I s args
  | "strata_search" => dispatch_search I s args
  | "strata_forget" => dispatch_forget I s args
  | "strata_log" => dispatch_log I s args
  | "strata_branch" => dispatch_branch I s args
  | "strata_history" => dispatch_history I s args
  | "strata_status" => dispatch_status I s
  | _ => (s, .error (.UnknownTool name))

end agent

/-- Embedding of `ToolRegistry` (src/tools/mod.rs lines 57 to 99). -/
structure ToolRegistry where
  tools : List ToolDef
  developer_mode : Bool

/-- Modelled from the spec: developer-mode dispatch routes by a fixed set
of name-prefix rules to per-capability modules (spec section 4.4), most of
which are outside the verified sources; the curated registry never reaches
it (`developer_mode := false`), and no claim exercises it, so it is
modelled as a total function only. -/
def developer_dispatch {σ : Type} (_ : StrataIface σ) (s : McpSession σ)
    (name : String) (_ : JsonMap) : McpSession σ × Except McpError JsonValue :=
  (s, .error (.UnknownTool name))

namespace ToolRegistry

/-- Embedding of `ToolRegistry::new` (src/tools/mod.rs lines 65 to 70):
the curated registry. -/
def new : ToolRegistry :=
  { tools := agent.tools, developer_mode := false }

/-- Embedding of `ToolRegistry::tools`. -/
def tools_list (reg : ToolRegistry) : List ToolDef := reg.tools

/-- Embedding of `ToolRegistry::dispatch` (src/tools/mod.rs lines 107 to
158): the curated mode delegates to `agent::dispatch`; the developer route
is modelled separately. -/
def dispatch {σ : Type} (I : StrataIface σ) (reg : ToolRegistry)
    (s : McpSession σ) (name : String) (args : JsonMap) :
    McpSession σ × Except McpError JsonValue :=
  if !reg.developer_mode then agent.dispatch I s name args
  else developer_dispatch I s name args

end ToolRegistry

/-! ## Demo store interface for witnesses.

A toy instantiation of the external interface over the unit state: the
plausible write table and variant names for the stratadb statics, and a
configurable result for `exec`. -/

/-- A plausible model of the external `Command::is_write` table (writes
mutate store state; reads do not). -/
def demo_is_write : Command → Bool
  | .JsonSet _ _ _ _ _ => true
  | .JsonDelete _ _ _ _ => true
  | .EventAppend _ _ _ _ => true
  | .BranchCreate _ _ => true
  | .BranchDelete _ => true
  | .TxnBegin => true
  | .TxnCommit => true
  | .TxnAbort => true
  | _ => false

/-- A plausible model of the external `Command::name` (variant names). -/
def demoCmdName : Command → String
  | .JsonSet _ _ _ _ _ => "JsonSet"
  | .JsonGet _ _ _ _ _ => "JsonGet"
  | .JsonDelete _ _ _ _ => "JsonDelete"
  | .JsonGetv _ _ _ _ => "JsonGetv"
  | .EventAppend _ _ _ _ => "EventAppend"
  | .Search _ _ _ => "Search"
  | .BranchCreate _ _ => "BranchCreate"
  | .BranchList _ _ _ => "BranchList"
  | .BranchDelete _ => "BranchDelete"
  | .BranchExists _ => "BranchExists"
  | .TimeRange _ => "TimeRange"
  | .Info => "Info"
  | .EmbedStatus => "EmbedStatus"
  | .TxnBegin => "TxnBegin"
  | .TxnCommit => "TxnCommit"
  | .TxnAbort => "TxnAbort"

/-- Demo interface over the unit store state: every `exec` returns `r`,
the branch power calls return fixed results. -/
def demoIface (mode : AccessMode) (r : Except StoreError Output) : StrataIface Unit :=
  { access_mode := fun _ => mode
    is_write := demo_is_write
    cmd_name := demoCmdName
    exec := fun st _ => (st, r)
    fork := fun st _ _ => (st, .ok ⟨"default", "dst", 3⟩)
    diff := fun st a b => (st, .ok ⟨a, b, ⟨1, 2, 3⟩⟩)
    merge := fun st _ _ _ => (st, .ok ⟨4, 1, []⟩) }

/-- A fresh demo session over the unit store. -/
def demoSession : McpSession Unit := McpSession.new ()

/-! ## Claims. -/

/-- C1: for every command with `is_write()` true, if the store's access
mode is ReadOnly then `McpSession::execute` returns the ACCESS_DENIED error
carrying the command's operation name and the session (its store state
included) is returned untouched — the result does not mention `I.exec`, so
the store session's execute is never invoked and no store mutation occurs;
if the access mode is ReadWrite the command is passed through unchanged to
the store and the result is the ordinary execution pipeline. -/
theorem c1_readonly_write_guard {σ : Type} (I : StrataIface σ)
    (s : McpSession σ) (cmd : Command) (hw : I.is_write cmd = true) :
    (I.access_mode s.store = .ReadOnly →
      McpSession.execute I s cmd =
        (s, .error (.Strata "ACCESS_DENIED"
          ("access denied: " ++ I.cmd_name cmd ++ " rejected — database is read-only")))) ∧
    (I.access_mode s.store = .ReadWrite →
      McpSession.execute I s cmd =
        match I.exec s.store cmd with
        | (st2, .error e) => ({ s with store := st2 }, .error e.toMcp)
        | (st2, .ok out) =>
          ({ s with
              store := st2,
              in_transaction :=
               (match out with
                | .TxnBegun => true
                | .TxnCommitted _ => false
                | .TxnAborted => false
                | _ => s.in_transaction) }, .ok out)) := by
  constructor
  · intro hro
    simp [McpSession.execute, hw, McpSession.check_write_access,
      McpSession.is_read_only, hro]
  · intro hrw
    simp [McpSession.execute, hw, McpSession.check_write_access,
      McpSession.is_read_only, hrw]

/-- Witness for C1: a concrete write command against a read-only demo
store is denied with the operation name in the message. -/
theorem c1_witness :
    McpSession.execute (demoIface .ReadOnly (.ok .Unit)) demoSession
        (.JsonSet none none "k" "$" .Null) =
      (demoSession, .error (.Strata "ACCESS_DENIED"
        "access denied: JsonSet rejected — database is read-only")) :=
  (c1_readonly_write_guard (demoIface .ReadOnly (.ok .Unit)) demoSession
    (.JsonSet none none "k" "$" .Null) rfl).1 rfl

/-- C2: if the existence check issued by `switch_branch` reports false, the
session keeps all its context fields (only the store state advances by the
check) and a BranchNotFound error carrying the name is returned; the branch
field becomes `n` exactly when the check returns true, and space and
transaction state are never touched. -/
theorem c2_switch_branch_atomic {σ : Type} (I : StrataIface σ)
    (s : McpSession σ) (n : String) :
    (∀ st2, I.exec s.store (.BranchExists n) = (st2, .ok (.Bool false)) →
      McpSession.switch_branch I s n =
        ({ s with store := st2 }, .error (.BranchNotFound n))) ∧
    ((McpSession.switch_branch I s n).1.branch =
      match (I.exec s.store (.BranchExists n)).2 with
      | .ok (.Bool true) => n
      | _ => s.branch) ∧
    (McpSession.switch_branch I s n).1.space = s.space ∧
    (McpSession.switch_branch I s n).1.in_transaction = s.in_transaction := by
  refine ⟨?_, ?_, ?_, ?_⟩
  · intro st2 h
    simp [McpSession.switch_branch, h]
  all_goals
    unfold McpSession.switch_branch
    rcases h : I.exec s.store (.BranchExists n) with ⟨st2, r⟩
    rcases r with e | out
    · rfl
    · cases out <;> first
        | rfl
        | (rename_i b; cases b <;> rfl)

/-- Witness for C2: switching to a branch the demo store reports missing
leaves the session context unchanged and returns BranchNotFound. -/
theorem c2_witness :
    McpSession.switch_branch (demoIface .ReadWrite (.ok (.Bool false)))
        demoSession "ghost" =
      (demoSession, .error (.BranchNotFound "ghost")) :=
  (c2_switch_branch_atomic (demoIface .ReadWrite (.ok (.Bool false)))
    demoSession "ghost").1 () rfl

/-- C3: the transaction flag after `McpSession::execute` is a function of
the returned output alone — true on TxnBegun, false on TxnCommitted or
TxnAborted, and the previous flag on every other output and on every error
(guard denials included); the Begin/Commit/Abort lockstep transitions of
the spec are instances of this equation. -/
theorem c3_txn_flag_tracks_output {σ : Type} (I : StrataIface σ)
    (s : McpSession σ) (cmd : Command) :
    (McpSession.execute I s cmd).1.in_transaction =
      match (McpSession.execute I s cmd).2 with
      | .ok .TxnBegun => true
      | .ok (.TxnCommitted _) => false
      | .ok .TxnAborted => false
      | _ => s.in_transaction := by
  unfold McpSession.execute
  rcases hg : (if I.is_write cmd then McpSession.check_write_access I s (I.cmd_name cmd)
      else .ok ()) with e | u
  · rfl
  · rcases h : I.exec s.store cmd with ⟨st2, r⟩
    rcases r with e | out
    · rfl
    · cases out <;> rfl

/-- C10: the branch power bypasses `fork_branch` and `merge_branch` apply
the write guard before touching the store (on a read-only store they return
the ACCESS_DENIED error naming the operation, without consulting `I.fork`
or `I.merge`), while `diff_branches` applies no write check at all — its
result is always the plain mapping of `I.diff`, access mode unread. -/
theorem c10_branch_power_guards {σ : Type} (I : StrataIface σ)
    (s : McpSession σ) (hro : I.access_mode s.store = .ReadOnly) :
    (∀ destination, McpSession.fork_branch I s destination =
      (s, .error (.Strata "ACCESS_DENIED"
        "access denied: BranchFork rejected — database is read-only"))) ∧
    (∀ source strategy, McpSession.merge_branch I s source strategy =
      (s, .error (.Strata "ACCESS_DENIED"
        "access denied: BranchMerge rejected — database is read-only"))) ∧
    (∀ a b, McpSession.diff_branches I s a b =
      match I.diff s.store a b with
      | (st2, .error e) => ({ s with store := st2 }, .error e.toMcp)
      | (st2, .ok d) => ({ s with store := st2 }, .ok d)) := by
  refine ⟨?_, ?_, ?_⟩
  · intro destination
    simp [McpSession.fork_branch, McpSession.check_write_access,
      McpSession.is_read_only, hro]
  · intro source strategy
    simp [McpSession.merge_branch, McpSession.check_write_access,
      McpSession.is_read_only, hro]
  · intro a b
    rfl

/-- Witness for C10: on a concrete read-only demo store, fork is denied,
merge is denied, and diff still reaches the store and succeeds. -/
theorem c10_witness :
    (McpSession.fork_branch (demoIface .ReadOnly (.ok .Unit)) demoSession "dst" =
      (demoSession, .error (.Strata "ACCESS_DENIED"
        "access denied: BranchFork rejected — database is read-only"))) ∧
    (McpSession.merge_branch (demoIface .ReadOnly (.ok .Unit)) demoSession "src"
        .LastWriterWins =
      (demoSession, .error (.Strata "ACCESS_DENIED"
        "access denied: BranchMerge rejected — database is read-only"))) ∧
    (McpSession.diff_branches (demoIface .ReadOnly (.ok .Unit)) demoSession "a" "b" =
      (demoSession, .ok ⟨"a", "b", ⟨1, 2, 3⟩⟩)) := by
  have h := c10_branch_power_guards (demoIface .ReadOnly (.ok .Unit)) demoSession rfl
  exact ⟨h.1 "dst", h.2.1 "src" .LastWriterWins, h.2.2 "a" "b"⟩

/-- The eight curated tool names, in registration order. -/
def curatedNames : List String :=
  ["strata_store", "strata_recall", "strata_search", "strata_forget",
   "strata_log", "strata_branch", "strata_history", "strata_status"]

/-- C7: the registry built by `ToolRegistry::new` holds exactly the eight
curated tool definitions, and its dispatch is an exact-match lookup: each
of the eight names routes to that tool's handler, and every other name
returns UnknownTool carrying the name. -/
theorem c7_curated_registry_dispatch {σ : Type} (I : StrataIface σ) :
    (ToolRegistry.new.tools.map (fun d => d.name) = curatedNames) ∧
    (∀ (s : McpSession σ) (args : JsonMap),
      ToolRegistry.dispatch I .new s "strata_store" args = agent.dispatch_store I s args ∧
      ToolRegistry.dispatch I .new s "strata_recall" args = agent.dispatch_recall I s args ∧
      ToolRegistry.dispatch I .new s "strata_search" args = agent.dispatch_search I s args ∧
      ToolRegistry.dispatch I .new s "strata_forget" args = agent.dispatch_forget I s args ∧
      ToolRegistry.dispatch I .new s "strata_log" args = agent.dispatch_log I s args ∧
      ToolRegistry.dispatch I .new s "strata_branch" args = agent.dispatch_branch I s args ∧
      ToolRegistry.dispatch I .new s "strata_history" args = agent.dispatch_history I s args ∧
      ToolRegistry.dispatch I .new s "strata_status" args = agent.dispatch_status I s) ∧
    (∀ (s : McpSession σ) (name : String) (args : JsonMap),
      name ∉ curatedNames →
      ToolRegistry.dispatch I .new s name args = (s, .error (.UnknownTool name))) := by
  refine ⟨rfl, fun s args => ⟨rfl, rfl, rfl, rfl, rfl, rfl, rfl, rfl⟩, ?_⟩
  intro s name args h
  show agent.dispatch I s name args = (s, .error (.UnknownTool name))
  unfold agent.dispatch
  split <;> simp_all [curatedNames]

/-- Witness for C7: an unknown tool name is rejected by the curated
registry. -/
theorem c7_witness :
    ToolRegistry.dispatch (demoIface .ReadWrite (.ok .Unit)) .new demoSession
        "strata_nope" .nil =
      (demoSession, .error (.UnknownTool "strata_nope")) :=
  (c7_curated_registry_dispatch (demoIface .ReadWrite (.ok .Unit))).2.2
    demoSession "strata_nope" .nil (by decide)

/-- C8: the JSON for `Output::EmbedStatus` is an object carrying the eight
fields verbatim together with the derived boolean
`is_idle = (pending == 0 && scheduler_active_tasks == 0 && scheduler_queue_depth == 0)`. -/
theorem c8_embed_status_shape (info : EmbedInfo) :
    jGet (output_to_json (.EmbedStatus info)) "is_idle" =
      some (.bool (info.pending == 0 && info.scheduler_active_tasks == 0 &&
        info.scheduler_queue_depth == 0)) ∧
    jGet (output_to_json (.EmbedStatus info)) "auto_embed" =
      some (.bool info.auto_embed) ∧
    jGet (output_to_json (.EmbedStatus info)) "batch_size" =
      some (.num (.posInt info.batch_size)) ∧
    jGet (output_to_json (.EmbedStatus info)) "pending" =
      some (.num (.posInt info.pending)) ∧
    jGet (output_to_json (.EmbedStatus info)) "total_queued" =
      some (.num (.posInt info.total_queued)) ∧
    jGet (output_to_json (.EmbedStatus info)) "total_embedded" =
      some (.num (.posInt info.total_embedded)) ∧
    jGet (output_to_json (.EmbedStatus info)) "total_failed" =
      some (.num (.posInt info.total_failed)) ∧
    jGet (output_to_json (.EmbedStatus info)) "scheduler_queue_depth" =
      some (.num (.posInt info.scheduler_queue_depth)) ∧
    jGet (output_to_json (.EmbedStatus info)) "scheduler_active_tasks" =
      some (.num (.posInt info.scheduler_active_tasks)) :=
  ⟨rfl, rfl, rfl, rfl, rfl, rfl, rfl, rfl, rfl⟩

/-- Lookup after a map insert: the inserted key reads the new value, every
other key is unaffected. -/
theorem JsonMap.get_insert : ∀ (m : JsonMap) (k k2 : String) (v : JsonValue),
    (m.insert k v).get k2 = if k2 = k then some v else m.get k2
  | .nil, k, k2, v => rfl
  | .cons kh vh t, k, k2, v => by
    unfold insert
    by_cases h1 : strLt k kh = true
    · simp only [h1, if_true, get]
    · simp only [h1, if_false, Bool.false_eq_true]
      by_cases h2 : k = kh
      · subst h2
        simp only [if_pos rfl, get]
        by_cases h3 : k2 = k <;> simp [h3]
      · simp only [if_neg h2, get, get_insert t]
        by_cases h3 : k2 = kh
        · subst h3
          simp [Ne.symm h2]
        · simp [h3]

/-- A present field whose value is not a string reads as `none` through
`as_str`. -/
theorem jsonAsStr_of_not_string (j : JsonValue) (h : isString j = false) :
    jsonAsStr j = none := by
  cases j <;> simp_all [isString, jsonAsStr]

/-- Every run of the element loop of `get_vector_arg` either succeeds or
fails with exactly the InvalidArg element error. -/
theorem vector_elems_cases (name : String) : ∀ (l : JsonList),
    vector_elems name l = .error (.InvalidArg name "Expected array of numbers") ∨
    ∃ v, vector_elems name l = .ok v
  | .nil => .inr ⟨[], rfl⟩
  | .cons h t => by
    unfold vector_elems
    cases hf : jsonAsF64 h with
    | none => exact .inl rfl
    | some f =>
      rcases vector_elems_cases name t with he | ⟨v, hv⟩
      · rw [he]
        exact .inl rfl
      · rw [hv]
        exact .inr ⟨_, rfl⟩

/-- C6 counterexample: `get_string_arg` on a map whose field is present
but holds a number returns MissingArg (naming the field) — not the
InvalidArg error the claim requires for a present, wrongly typed field. -/
theorem c6_counterexample :
    get_string_arg (.cons "x" (.num (.posInt 5)) .nil) "x" =
      .error (.MissingArg "x") := rfl

/-- C6 amended: an absent required field yields MissingArg naming the field
for all four helpers; a present but wrongly typed field ALSO yields
MissingArg (not InvalidArg) for `get_string_arg`, `get_u64_arg` and
`get_vector_arg` (the wrong-type information is collapsed by `and_then`);
`get_value_arg` accepts a present field of any JSON shape, simply decoding
it; only a wrongly typed ELEMENT inside a present array makes
`get_vector_arg` return InvalidArg naming the field with a reason. -/
theorem c6_required_arg_errors :
    (∀ (args : JsonMap) (name : String), args.get name = none →
      get_string_arg args name = .error (.MissingArg name) ∧
      get_u64_arg args name = .error (.MissingArg name) ∧
      get_value_arg args name = .error (.MissingArg name) ∧
      get_vector_arg args name = .error (.MissingArg name)) ∧
    (∀ (args : JsonMap) (name : String) (j : JsonValue),
      args.get name = some j → isString j = false →
      get_string_arg args name = .error (.MissingArg name)) ∧
    (∀ (args : JsonMap) (name : String) (j : JsonValue),
      args.get name = some j → jsonAsU64 j = none →
      get_u64_arg args name = .error (.MissingArg name)) ∧
    (∀ (args : JsonMap) (name : String) (j : JsonValue),
      args.get name = some j → jsonAsArray j = none →
      get_vector_arg args name = .error (.MissingArg name)) ∧
    (∀ (args : JsonMap) (name : String) (l : JsonList),
      args.get name = some (.arr l) →
      get_vector_arg args name =
          .error (.InvalidArg name "Expected array of numbers") ∨
        ∃ v, get_vector_arg args name = .ok v) ∧
    (∀ (args : JsonMap) (name : String) (j : JsonValue),
      args.get name = some j → get_value_arg args name = json_to_value j) := by
  refine ⟨?_, ?_, ?_, ?_, ?_, ?_⟩
  · intro args name h
    refine ⟨?_, ?_, ?_, ?_⟩ <;>
      simp [get_string_arg, get_u64_arg, get_value_arg, get_vector_arg, h]
  · intro args name j h hs
    simp [get_string_arg, h, jsonAsStr_of_not_string j hs]
  · intro args name j h hu
    simp [get_u64_arg, h, hu]
  · intro args name j h ha
    simp [get_vector_arg, h, ha]
  · intro args name l h
    have : get_vector_arg args name = vector_elems name l := by
      simp [get_vector_arg, h, jsonAsArray]
    rw [this]
    exact vector_elems_cases name l
  · intro args name j h
    simp [get_value_arg, h]

/-- Witness for C6 (amended): concrete absent and wrongly typed fields. -/
theorem c6_witness :
    (get_u64_arg .nil "n" = .error (.MissingArg "n")) ∧
    (get_u64_arg (.cons "n" (.str "five") .nil) "n" = .error (.MissingArg "n")) ∧
    (get_vector_arg (.cons "v" (.arr (.cons (.str "x") .nil)) .nil) "v" =
      .error (.InvalidArg "v" "Expected array of numbers")) := by
  refine ⟨(c6_required_arg_errors.1 .nil "n" rfl).2.1,
    c6_required_arg_errors.2.2.1 (.cons "n" (.str "five") .nil) "n" (.str "five") rfl rfl,
    ?_⟩
  have h := c6_required_arg_errors.2.2.2.2.1
    (.cons "v" (.arr (.cons (.str "x") .nil)) .nil) "v" (.cons (.str "x") .nil) rfl
  rcases h with h | ⟨v, hv⟩
  · exact h
  · have hev : get_vector_arg (.cons "v" (.arr (.cons (.str "x") .nil)) .nil) "v" =
        .error (.InvalidArg "v" "Expected array of numbers") := rfl
    rw [hev] at hv
    exact Except.noConfusion hv

/-- C9: the optional-argument helpers treat a present but wrongly typed
field exactly like an absent one — they return `none`, never an error —
and consequently `dispatch_store` with a non-string `path` behaves
identically to `dispatch_store` with the path field replaced by the default
`"$"`. -/
theorem c9_optional_args_lenient {σ : Type} (I : StrataIface σ) :
    (∀ (args : JsonMap) (name : String) (j : JsonValue),
      args.get name = some j → isString j = false →
      get_optional_string args name = none) ∧
    (∀ (args : JsonMap) (name : String) (j : JsonValue),
      args.get name = some j → isNumber j = false →
      get_optional_u64 args name = none) ∧
    (∀ (args : JsonMap) (name : String) (j : JsonValue),
      args.get name = some j → isBool j = false →
      get_optional_bool args name = none) ∧
    (∀ (s : McpSession σ) (args : JsonMap) (j : JsonValue),
      args.get "path" = some j → isString j = false →
      agent.dispatch_store I s args =
        agent.dispatch_store I s (args.insert "path" (.str "$"))) := by
  refine ⟨?_, ?_, ?_, ?_⟩
  · intro args name j h hs
    simp [get_optional_string, h, jsonAsStr_of_not_string j hs]
  · intro args name j h hn
    cases j <;> simp_all [isNumber, get_optional_u64, jsonAsU64]
  · intro args name j h hb
    cases j <;> simp_all [isBool, get_optional_bool, jsonAsBool]
  · intro s args j h hs
    unfold agent.dispatch_store
    have h1 : get_string_arg (args.insert "path" (.str "$")) "key" =
        get_string_arg args "key" := by
      simp [get_string_arg, JsonMap.get_insert]
    have h2 : get_value_arg (args.insert "path" (.str "$")) "value" =
        get_value_arg args "value" := by
      simp [get_value_arg, JsonMap.get_insert]
    have h3 : get_optional_string args "path" = none := by
      simp [get_optional_string, h, jsonAsStr_of_not_string j hs]
    have h4 : get_optional_string (args.insert "path" (.str "$")) "path" =
        some "$" := by
      simp [get_optional_string, JsonMap.get_insert, jsonAsStr]
    rw [h1, h2, h3, h4]
    rfl

/-- Witness for C9: concrete wrongly typed optional fields read as absent,
and a concrete store call with a numeric path equals the defaulted one. -/
theorem c9_witness :
    (get_optional_string (.cons "p" (.num (.posInt 5)) .nil) "p" = none) ∧
    (get_optional_u64 (.cons "n" (.str "x") .nil) "n" = none) ∧
    (get_optional_bool (.cons "b" (.str "x") .nil) "b" = none) ∧
    (agent.dispatch_store (demoIface .ReadWrite (.ok (.Version 1))) demoSession
        (.cons "key" (.str "k") (.cons "path" (.num (.posInt 5))
          (.cons "value" .null .nil))) =
      agent.dispatch_store (demoIface .ReadWrite (.ok (.Version 1))) demoSession
        ((JsonMap.cons "key" (.str "k") (.cons "path" (.num (.posInt 5))
          (.cons "value" .null .nil))).insert "path" (.str "$"))) := by
  have h := c9_optional_args_lenient (demoIface .ReadWrite (.ok (.Version 1)))
  exact ⟨h.1 _ "p" (.num (.posInt 5)) rfl rfl,
    h.2.1 _ "n" (.str "x") rfl rfl,
    h.2.2.1 _ "b" (.str "x") rfl rfl,
    h.2.2.2 demoSession _ (.num (.posInt 5)) rfl rfl⟩

/-- C5 counterexample: the float-carried JSON number `3.0` has a value
exactly representable as a 64-bit signed integer, yet `json_to_value`
decodes it as `Value::Float(3.0)`, not `Value::Int(3)` as the claim's
first clause requires. -/
theorem c5_counterexample :
    JNumber.specI64 (.float ⟨3, 0⟩) = true ∧
    json_to_value (.num (.float ⟨3, 0⟩)) = .ok (.Float ⟨3, 0⟩) ∧
    Value.Float ⟨3, 0⟩ ≠ Value.Int 3 :=
  ⟨rfl, rfl, by decide⟩

/-- C5 amended: `json_to_value` decodes a number as `Int i` exactly when
serde's integer view `as_i64` is available (an integer-carried number
within i64 range — a float-carried number decodes as Float even when its
value is integral); otherwise as `Float f` with `f` the `as_f64` view when
available; otherwise it fails with InvalidArg "Number out of range"; and
for serde numbers the `as_f64` view always exists, so decoding a number in
fact always succeeds. -/
theorem c5_number_decode (n : JNumber) :
    (∀ i, n.asI64 = some i → json_to_value (.num n) = .ok (.Int i)) ∧
    (∀ f, n.asI64 = none → n.asF64 = some f →
      json_to_value (.num n) = .ok (.Float f)) ∧
    (n.asI64 = none → n.asF64 = none →
      json_to_value (.num n) = .error (.InvalidArg "value" "Number out of range")) ∧
    (∃ v, json_to_value (.num n) = .ok v) := by
  refine ⟨?_, ?_, ?_, ?_⟩
  · intro i h
    simp [json_to_value, h]
  · intro f h1 h2
    simp [json_to_value, h1, h2]
  · intro h1 h2
    simp [json_to_value, h1, h2]
  · unfold json_to_value
    cases h1 : n.asI64 with
    | some i => exact ⟨.Int i, rfl⟩
    | none =>
      cases h2 : n.asF64 with
      | some f => exact ⟨.Float f, rfl⟩
      | none => cases n <;> simp_all [JNumber.asF64]

/-- Witness for C5 (amended): a small integer-carried number decodes as
Int, a float-carried number as Float. -/
theorem c5_witness :
    json_to_value (.num (.posInt 7)) = .ok (.Int 7) ∧
    json_to_value (.num (.float ⟨5, -1⟩)) = .ok (.Float ⟨5, -1⟩) :=
  ⟨(c5_number_decode (.posInt 7)).1 7 rfl,
   (c5_number_decode (.float ⟨5, -1⟩)).2.1 ⟨5, -1⟩ rfl rfl⟩

/-! ## Order facts about the key comparison. -/

theorem charListLt_asymm : ∀ l1 l2, charListLt l1 l2 = true → charListLt l2 l1 = false
  | [], [] => by simp [charListLt]
  | [], _ :: _ => fun _ => rfl
  | _ :: _, [] => by simp [charListLt]
  | c :: cs, d :: ds => by
    unfold charListLt
    by_cases h1 : c < d
    · intro _
      have h2 : ¬d < c := lt_asymm h1
      have h3 : d ≠ c := ne_of_gt h1
      simp [h2, h3]
    · by_cases h2 : c = d
      · subst h2
        intro h3
        simp only [if_neg h1, if_pos rfl] at h3
        simp [h1, charListLt_asymm cs ds h3]
      · intro h3
        simp [h1, h2] at h3

theorem charListLt_ne : ∀ l1 l2, charListLt l1 l2 = true → l1 ≠ l2
  | [], [] => by simp [charListLt]
  | [], _ :: _ => fun _ h => by cases h
  | _ :: _, [] => by simp [charListLt]
  | c :: cs, d :: ds => by
    unfold charListLt
    by_cases h1 : c < d
    · intro _ he
      injection he with he1 _
      exact absurd he1 (ne_of_lt h1)
    · by_cases h2 : c = d
      · subst h2
        intro h3 he
        simp only [if_neg h1, if_pos rfl] at h3
        injection he with _ he2
        exact charListLt_ne cs ds h3 he2
      · intro h3
        simp [h1, h2] at h3

theorem strLt_asymm (a b : String) (h : strLt a b = true) : strLt b a = false :=
  charListLt_asymm a.data b.data h

theorem strLt_ne (a b : String) (h : strLt a b = true) : a ≠ b :=
  fun he => charListLt_ne a.data b.data h (congrArg String.data he)

/-! ## Entry-list lemmas for the two map folds. -/

theorem JsonMap.append_nil : ∀ m : JsonMap, m.append .nil = m
  | .nil => rfl
  | .cons k v t => by
    unfold append
    rw [append_nil t]

theorem JsonMap.append_assoc : ∀ a b c : JsonMap,
    (a.append b).append c = a.append (b.append c)
  | .nil, _, _ => rfl
  | .cons k v t, b, c => by
    simp only [append]
    rw [append_assoc t]

theorem JsonMap.keys_append : ∀ a b : JsonMap,
    (a.append b).keys = a.keys ++ b.keys
  | .nil, _ => rfl
  | .cons k v t, b => by
    simp only [append, keys]
    rw [keys_append t]
    rfl

/-- Inserting a key above every key of a sorted-or-not map appends it. -/
theorem JsonMap.insert_eq_append (x : JsonValue) :
    ∀ (m : JsonMap) (k : String), (∀ a ∈ m.keys, strLt a k = true) →
    m.insert k x = m.append (.cons k x .nil)
  | .nil, k, _ => rfl
  | .cons kh vh t, k, h => by
    unfold insert append
    have hh : strLt kh k = true := h kh (by simp [keys])
    have h1 : strLt k kh = false := strLt_asymm kh k hh
    have h2 : k ≠ kh := (strLt_ne kh k hh).symm
    simp [h1, h2]
    exact insert_eq_append x t k (fun a ha => h a (by simp [keys]; exact .inr ha))

theorem VMap.append_nil_vm : ∀ m : VMap, m.append .nil = m
  | .nil => rfl
  | .cons k v t => by
    unfold append
    rw [append_nil_vm t]

theorem VMap.append_assoc_vm : ∀ a b c : VMap,
    (a.append b).append c = a.append (b.append c)
  | .nil, _, _ => rfl
  | .cons k v t, b, c => by
    simp only [append]
    rw [append_assoc_vm t]

theorem VMap.hasKey_append : ∀ (a b : VMap) (k : String),
    (a.append b).hasKey k = (a.hasKey k || b.hasKey k)
  | .nil, _, _ => rfl
  | .cons kh vh t, b, k => by
    simp only [append, hasKey]
    rw [hasKey_append t]
    simp [Bool.or_assoc]

/-- Inserting a fresh key into a HashMap appends it (in this model). -/
theorem VMap.insertHM_eq_append (w : Value) :
    ∀ (m : VMap) (k : String), m.hasKey k = false →
    m.insertHM k w = m.append (.cons k w .nil)
  | .nil, k, _ => rfl
  | .cons kh vh t, k, h => by
    unfold insertHM append
    unfold hasKey at h
    simp only [Bool.or_eq_false_iff, decide_eq_false_iff_not] at h
    simp [h.1]
    exact insertHM_eq_append w t k h.2

/-! ## Key facts from the BTreeMap sortedness invariant. -/

theorem JsonMap.gtKey_mem : ∀ (m : JsonMap) (k k2 : String),
    m.gtKey k = true → k2 ∈ m.keys → strLt k k2 = true
  | .nil, _, k2, _, hm => absurd hm (by simp [keys])
  | .cons kh vh t, k, k2, h, hm => by
    unfold gtKey at h
    simp only [Bool.and_eq_true] at h
    unfold keys at hm
    rcases List.mem_cons.mp hm with he | ht
    · exact he ▸ h.1
    · exact gtKey_mem t k k2 h.2 ht

theorem JsonMap.sortedKeys_pairwise : ∀ m : JsonMap, m.sortedKeys = true →
    m.keys.Pairwise (fun a b => strLt a b = true)
  | .nil, _ => List.Pairwise.nil
  | .cons k v t, h => by
    unfold sortedKeys at h
    simp only [Bool.and_eq_true] at h
    unfold keys
    exact List.Pairwise.cons (fun b hb => gtKey_mem t k b h.1 hb)
      (sortedKeys_pairwise t h.2)

/-! ## The two fold loops, normalized to their accumulator-free forms. -/

/-- The object decode loop over fresh, pairwise distinct keys is the direct
map (the HashMap inserts never replace). -/
theorem json_to_value_entries_spec : ∀ (m : JsonMap) (acc : VMap),
    (∀ k ∈ m.keys, acc.hasKey k = false) →
    m.keys.Pairwise (fun a b => a ≠ b) →
    json_to_value_entries m acc = (mapDecode m).map (fun vm => acc.append vm)
  | .nil, acc, _, _ => by
    simp [json_to_value_entries, mapDecode, Except.map, VMap.append_nil_vm]
  | .cons k v t, acc, h1, h2 => by
    cases hv : json_to_value v with
    | error e => simp [json_to_value_entries, mapDecode, hv, Except.map]
    | ok w =>
      have hk : acc.hasKey k = false := h1 k (by simp [JsonMap.keys])
      have hpc := List.pairwise_cons.mp h2
      simp only [json_to_value_entries, mapDecode, hv]
      rw [VMap.insertHM_eq_append w acc k hk,
        json_to_value_entries_spec t (acc.append (.cons k w .nil))
          (fun k2 hk2 => by
            rw [VMap.hasKey_append]
            have ha : acc.hasKey k2 = false := h1 k2 (by simp [JsonMap.keys]; exact .inr hk2)
            have hne : k2 ≠ k := (hpc.1 k2 hk2).symm
            simp [ha, VMap.hasKey, hne])
          hpc.2]
      cases hd : mapDecode t with
      | error e => simp [hd, Except.map]
      | ok rest =>
        simp [hd, Except.map, VMap.append_assoc_vm]
        rfl

/-- The object encode loop over keys all above the accumulator and pairwise
ascending appends the direct map (the BTreeMap inserts always land at the
end). -/
theorem value_to_json_entries_spec : ∀ (vm : VMap) (acc : JsonMap),
    (∀ b ∈ vm.keys, ∀ a ∈ acc.keys, strLt a b = true) →
    vm.keys.Pairwise (fun a b => strLt a b = true) →
    value_to_json_entries vm acc = acc.append (mapEncode vm)
  | .nil, acc, _, _ => by
    simp [value_to_json_entries, mapEncode, JsonMap.append_nil]
  | .cons k v t, acc, hc, hp => by
    simp only [value_to_json_entries, mapEncode]
    have hk : ∀ a ∈ acc.keys, strLt a k = true := hc k (by simp [VMap.keys])
    have hpc := List.pairwise_cons.mp hp
    rw [JsonMap.insert_eq_append (value_to_json v) acc k hk,
      value_to_json_entries_spec t (acc.append (.cons k (value_to_json v) .nil))
        (fun b hb a ha => by
          rw [JsonMap.keys_append] at ha
          rcases List.mem_append.mp ha with h | h
          · exact hc b (by simp [VMap.keys]; exact .inr hb) a h
          · have : a = k := by simpa [JsonMap.keys] using h
            exact this ▸ hpc.1 b hb)
        hpc.2,
      JsonMap.append_assoc]
    rfl

/-! ## The round-trip induction. -/

/-- Round-trip motive for values. -/
def RtV (j : JsonValue) : Prop :=
  j.wf = true → j.numsRtOk = true →
  ∃ v, json_to_value j = .ok v ∧ value_to_json v = j

/-- Round-trip motive for arrays. -/
def RtL (l : JsonList) : Prop :=
  l.wf = true → l.numsRtOk = true →
  ∃ vs, json_to_value_list l = .ok vs ∧ value_to_json_list vs = l

/-- Round-trip motive for objects (with key preservation). -/
def RtM (m : JsonMap) : Prop :=
  m.wf = true → m.numsRtOk = true →
  ∃ vm, mapDecode m = .ok vm ∧ mapEncode vm = m ∧ vm.keys = m.keys

theorem rt_num (n : JNumber) : RtV (.num n) := by
  intro hwf hrt
  cases n with
  | posInt m =>
    have hm : m ≤ i64Bound - 1 := by simpa [JsonValue.numsRtOk, JNumber.rtOk] using hrt
    refine ⟨.Int (m : Int), ?_, ?_⟩
    · simp [json_to_value, JNumber.asI64, hm]
    · simp [value_to_json, JNumber.fromInt]
  | negInt i =>
    have hi : i < 0 := by
      have := hwf
      simp [JsonValue.wf, JNumber.wf, Bool.and_eq_true, decide_eq_true_iff] at this
      exact this.2
    refine ⟨.Int i, ?_, ?_⟩
    · simp [json_to_value, JNumber.asI64]
    · simp [value_to_json, JNumber.fromInt, hi]
  | float d =>
    exact ⟨.Float d, rfl, rfl⟩

theorem rt_arr (l : JsonList) (ih : RtL l) : RtV (.arr l) := by
  intro hwf hrt
  obtain ⟨vs, h1, h2⟩ := ih (by simpa [JsonValue.wf] using hwf)
    (by simpa [JsonValue.numsRtOk] using hrt)
  refine ⟨.Array vs, ?_, ?_⟩
  · simp [json_to_value, h1, Except.map]
  · simp [value_to_json, h2]

theorem rt_obj (m : JsonMap) (ih : RtM m) : RtV (.obj m) := by
  intro hwf hrt
  have hw : m.sortedKeys = true ∧ m.wf = true := by
    simpa [JsonValue.wf, Bool.and_eq_true] using hwf
  obtain ⟨vm, h1, h2, h3⟩ := ih hw.2 (by simpa [JsonValue.numsRtOk] using hrt)
  have hsp := JsonMap.sortedKeys_pairwise m hw.1
  refine ⟨.Object vm, ?_, ?_⟩
  · have hne : m.keys.Pairwise (fun a b => a ≠ b) :=
      hsp.imp (fun hab => strLt_ne _ _ hab)
    have := json_to_value_entries_spec m .nil (fun k _ => rfl) hne
    simp [json_to_value, this, h1, Except.map]
    rfl
  · have hcross : ∀ b ∈ vm.keys, ∀ a ∈ (JsonMap.nil).keys, strLt a b = true := by
      intro b _ a ha
      simp [JsonMap.keys] at ha
    have hpair : vm.keys.Pairwise (fun a b => strLt a b = true) := by
      rw [h3]
      exact hsp
    have := value_to_json_entries_spec vm .nil hcross hpair
    simp [value_to_json, this, h2]
    rfl

theorem rt_lcons (h : JsonValue) (t : JsonList) (ihh : RtV h) (iht : RtL t) :
    RtL (.cons h t) := by
  intro hwf hrt
  simp only [JsonList.wf, Bool.and_eq_true] at hwf
  simp only [JsonList.numsRtOk, Bool.and_eq_true] at hrt
  obtain ⟨v, hv1, hv2⟩ := ihh hwf.1 hrt.1
  obtain ⟨vs, ht1, ht2⟩ := iht hwf.2 hrt.2
  refine ⟨.cons v vs, ?_, ?_⟩
  · unfold json_to_value_list
    rw [hv1, ht1]
  · unfold value_to_json_list
    rw [hv2, ht2]

theorem rt_mcons (k : String) (v : JsonValue) (t : JsonMap)
    (ihv : RtV v) (iht : RtM t) : RtM (.cons k v t) := by
  intro hwf hrt
  simp only [JsonMap.wf, Bool.and_eq_true] at hwf
  simp only [JsonMap.numsRtOk, Bool.and_eq_true] at hrt
  obtain ⟨w, hw1, hw2⟩ := ihv hwf.1 hrt.1
  obtain ⟨vm, ht1, ht2, ht3⟩ := iht hwf.2 hrt.2
  refine ⟨.cons k w vm, ?_, ?_, ?_⟩
  · unfold mapDecode
    rw [hw1, ht1]
  · unfold mapEncode
    rw [hw2, ht2]
  · unfold VMap.keys JsonMap.keys
    rw [ht3]

/-- The simultaneous round-trip statement, by the mutual recursor. -/
theorem roundTrip_value : ∀ j, RtV j :=
  fun j =>
    @JsonValue.rec RtV RtL RtM
      (fun _ _ => ⟨.Null, rfl, rfl⟩)
      (fun b _ _ => ⟨.Bool b, rfl, rfl⟩)
      rt_num
      (fun s _ _ => ⟨.String s, rfl, rfl⟩)
      rt_arr
      rt_obj
      (fun _ _ => ⟨.nil, rfl, rfl⟩)
      rt_lcons
      (fun _ _ => ⟨.nil, rfl, rfl, rfl⟩)
      rt_mcons
      j

/-- C4 (amended): decode-then-encode is the identity on every well-formed
JSON value all of whose numbers are integer-carried within i64 range or
float-carried; equality is plain (serde maps are canonically key-sorted,
so key order never distinguishes equal objects). -/
theorem c4_roundtrip (j : JsonValue) (hwf : j.wf = true)
    (hrt : j.numsRtOk = true) :
    (json_to_value j).map value_to_json = .ok j := by
  obtain ⟨v, h1, h2⟩ := roundTrip_value j hwf hrt
  rw [h1]
  simp [Except.map, h2]

/-- C4 counterexample: the JSON number `2^63 + 2^11` satisfies the claim's
representability rule (it is exactly representable as a 64-bit float), yet
decode-then-encode turns the integer-carried number into a float-carried
one, and the two JSON values are not equal. -/
theorem c4_counterexample :
    (JsonValue.num (.posInt (2 ^ 63 + 2 ^ 11))).wf = true ∧
    (JsonValue.num (.posInt (2 ^ 63 + 2 ^ 11))).specNumsRepresentable = true ∧
    (json_to_value (.num (.posInt (2 ^ 63 + 2 ^ 11)))).map value_to_json ≠
      .ok (.num (.posInt (2 ^ 63 + 2 ^ 11))) :=
  ⟨by decide, by decide, by decide⟩

/-- A concrete nested document for the C4 witness. -/
def c4_demo : JsonValue :=
  .obj (.cons "alpha" (.num (.posInt 1))
    (.cons "beta" (.arr (.cons .null (.cons (.num (.negInt (-2))) .nil)))
      (.cons "gamma" (.str "s") .nil)))

/-- Witness for C4 (amended): the round trip is the identity on a concrete
nested object with sorted keys and in-range numbers. -/
theorem c4_witness :
    c4_demo.wf = true ∧ c4_demo.numsRtOk = true ∧
    (json_to_value c4_demo).map value_to_json = .ok c4_demo :=
  ⟨by decide, by decide, c4_roundtrip c4_demo (by decide) (by decide)⟩

end StrataMcp
